import Mathlib

namespace TaskMgr

/-!
Verification of the task-manager core (`src/main.rs`).

The Rust program keeps a `Vec<Task>` in memory, persists it to the file
`tasks.json` via `serde_json`, and offers query/update operations.  This file
is a shallow embedding of that core:

* `Task` mirrors the Rust struct (`priority: u8` becomes a `Nat` together
  with the validity bound `≤ 255`, which the Rust type enforces).
* JSON text is modelled at the level of a JSON value tree `Json` plus the
  distinguished documents `Doc.emptyDoc` (the empty string, which is not a
  well-formed JSON document) and `Doc.badDoc` (any other non-JSON text).
  `serde_json::to_string_pretty` followed by `serde_json::from_str` of the
  produced text recovers the same value tree, so serialisation is modelled
  as producing `Doc.jsonDoc` of the encoded value.
* The backing file is a `FileState` (absent, unreadable for another reason,
  or holding a document); `Fs` additionally counts the `fs::write` calls so
  that "persists" / "does not write" is observable.
-/

/-- `Task`: mirrors the Rust struct with title, description, priority,
status, and project fields; `u8` is modelled as `Nat` (see `Task.valid`). -/
structure Task where
  title : String
  description : String
  priority : Nat
  status : String
  project : String
deriving DecidableEq, Repr, Inhabited

/-- The bound the Rust type `u8` puts on `priority`; the other fields are
unconstrained `String`s exactly as in the Rust struct. -/
def Task.valid (t : Task) : Prop := t.priority ≤ 255

instance (t : Task) : Decidable t.valid := inferInstanceAs (Decidable (_ ≤ _))

/-- JSON value trees (numbers restricted to integers, which covers the
schema: the only numeric field is the `u8` priority). -/
inductive Json where
  | null : Json
  | bool (b : Bool) : Json
  | num (n : Int) : Json
  | str (s : String) : Json
  | arr (xs : List Json) : Json
  | obj (fields : List (String × Json)) : Json

/-- A file's textual content, abstracted: the empty string, a well-formed
JSON document (as its value tree), or any other malformed text. -/
inductive Doc where
  | emptyDoc : Doc
  | jsonDoc (j : Json) : Doc
  | badDoc : Doc

/-- State of the backing file `tasks.json`: absent, unreadable for a reason
other than absence (permissions, not UTF-8, ...), or present with content. -/
inductive FileState where
  | absent : FileState
  | unreadable : FileState
  | content (d : Doc) : FileState

/-- The file system as the program sees it: the backing file plus a count of
`fs::write` calls performed, so persistence events are observable. -/
structure Fs where
  file : FileState
  writes : Nat

/-- Errors produced inside `load_tasks` / `save_tasks` (the spec's taxonomy:
`decodeErr` is its `DecodeError`, `ioErr` its `IOError`). -/
inductive LoadErr where
  | decodeErr : LoadErr
  | ioErr : LoadErr
deriving DecidableEq, Repr

/-- `#[derive(Serialize)]` on `Task`: an object with the five keys in field
declaration order. -/
def encodeTask (t : Task) : Json :=
  Json.obj [("title", Json.str t.title), ("description", Json.str t.description),
    ("priority", Json.num (Int.ofNat t.priority)), ("status", Json.str t.status),
    ("project", Json.str t.project)]

/-- Serialisation of the whole collection: a JSON array in order. -/
def encodeTasks (tasks : List Task) : Json :=
  Json.arr (tasks.map encodeTask)

/-- Field lookup in a deserialised JSON object. -/
def getField (fields : List (String × Json)) (key : String) : Except LoadErr Json :=
  match fields.find? (fun kv => kv.1 == key) with
  | some kv => Except.ok kv.2
  | none => Except.error LoadErr.decodeErr

/-- serde: a JSON string where a Rust `String` field is expected. -/
def asString (j : Json) : Except LoadErr String :=
  match j with
  | Json.str s => Except.ok s
  | _ => Except.error LoadErr.decodeErr

/-- serde: a JSON integer in `0..=255` where a `u8` field is expected. -/
def asU8 (j : Json) : Except LoadErr Nat :=
  match j with
  | Json.num n => if 0 ≤ n ∧ n ≤ 255 then Except.ok n.toNat else Except.error LoadErr.decodeErr
  | _ => Except.error LoadErr.decodeErr

/-- `#[derive(Deserialize)]` on `Task`: requires an object carrying all five
keys with values of the right shape (extra keys are ignored, as serde does
by default). -/
def decodeTask (j : Json) : Except LoadErr Task :=
  match j with
  | Json.obj fields => do
    let title ← getField fields "title" >>= asString
    let description ← getField fields "description" >>= asString
    let priority ← getField fields "priority" >>= asU8
    let status ← getField fields "status" >>= asString
    let project ← getField fields "project" >>= asString
    Except.ok ⟨title, description, priority, status, project⟩
  | _ => Except.error LoadErr.decodeErr

/-- serde's sequence deserialisation: elements in order, first error wins. -/
def decodeTaskList (js : List Json) : Except LoadErr (List Task) :=
  match js with
  | [] => Except.ok []
  | j :: rest => do
    let t ← decodeTask j
    let ts ← decodeTaskList rest
    Except.ok (t :: ts)

/-- `serde_json::from_str::<Vec<Task>>`: the empty string and malformed text
are parse failures; a JSON document must be an array of task objects. -/
def from_str (d : Doc) : Except LoadErr (List Task) :=
  match d with
  | Doc.emptyDoc => Except.error LoadErr.decodeErr
  | Doc.badDoc => Except.error LoadErr.decodeErr
  | Doc.jsonDoc j =>
    match j with
    | Json.arr xs => decodeTaskList xs
    | _ => Except.error LoadErr.decodeErr

/-- `fs::read_to_string("tasks.json")`: fails on an absent file (NotFound)
and on any other unreadable state. -/
def read_to_string (f : FileState) : Except LoadErr Doc :=
  match f with
  | FileState.absent => Except.error LoadErr.ioErr
  | FileState.unreadable => Except.error LoadErr.ioErr
  | FileState.content d => Except.ok d

/-- `fs::write("tasks.json", _)`: replaces the file content in full. -/
def fs_write (d : Doc) (fs : Fs) : Fs :=
  { file := FileState.content d, writes := fs.writes + 1 }

/-- `save_tasks` (src/main.rs:51-55): serialise with `to_string_pretty` and
overwrite the file (a successful write is modelled; no claim concerns write
failure). -/
def save_tasks (tasks : List Task) (fs : Fs) : Fs :=
  fs_write (Doc.jsonDoc (encodeTasks tasks)) fs

/-- `load_tasks` (src/main.rs:58-62): `read_to_string(..).unwrap_or_default()`
maps every read failure to the empty string, then `serde_json::from_str` is
run on the result; only its error propagates through the `?`. -/
def load_tasks (fs : Fs) : Except LoadErr (List Task) :=
  let contents :=
    match read_to_string fs.file with
    | Except.ok d => d
    | Except.error _ => Doc.emptyDoc
  from_str contents

/-- `main` (src/main.rs:234): `load_tasks().unwrap_or_else(|_| vec![])`. -/
def main_load (fs : Fs) : List Task :=
  match load_tasks fs with
  | Except.ok tasks => tasks
  | Except.error _ => []

/-- Rust `str::parse::<u8>`: an optional leading plus sign, then at least one
ASCII digit; the value must fit in `0..=255` (overflow is an error). -/
def parse_u8 (s : String) : Option Nat :=
  let digits :=
    match s.data with
    | '+' :: rest => rest
    | cs => cs
  if digits.isEmpty then none
  else if digits.all Char.isDigit then
    let n := digits.foldl (fun acc c => acc * 10 + (c.toNat - 48)) 0
    if n ≤ 255 then some n else none
  else none

/-- The optional named values the `update` subcommand passes to
`update_task` (`matches.value_of(..)` for each field; `priority` arrives as
the raw string still to be parsed). -/
structure UpdateArgs where
  title : String
  description : Option String
  priority : Option String
  status : Option String
  project : Option String

/-- `if let Some(new_description) = .. { task.description = .. }`. -/
def apply_desc (d : Option String) (t : Task) : Task :=
  match d with
  | some s => { t with description := s }
  | none => t

/-- `if let Some(new_status) = .. { task.status = .. }`. -/
def apply_status (d : Option String) (t : Task) : Task :=
  match d with
  | some s => { t with status := s }
  | none => t

/-- `if let Some(new_project) = .. { task.project = .. }`. -/
def apply_project (d : Option String) (t : Task) : Task :=
  match d with
  | some s => { t with project := s }
  | none => t

/-- The field mutations `update_task` performs on the found task, in the
source's order: description, priority, status, project.  The Boolean is
`false` when priority parsing failed, in which case the `?` returned early:
the description write has already happened, status and project have not. -/
def apply_update (args : UpdateArgs) (t : Task) : Task × Bool :=
  let t1 := apply_desc args.description t
  match args.priority with
  | none => (apply_project args.project (apply_status args.status t1), true)
  | some p =>
    match parse_u8 p with
    | none => (t1, false)
    | some n =>
      (apply_project args.project (apply_status args.status { t1 with priority := n }), true)

/-- The in-memory effect of `tasks.iter_mut().find(..)` plus the field
writes: `none` when no title matches; otherwise the list with the first
matching task replaced, and whether all mutations completed. -/
def update_in_mem (args : UpdateArgs) (tasks : List Task) : Option (List Task × Bool) :=
  match tasks with
  | [] => none
  | t :: rest =>
    if t.title == args.title then
      some ((apply_update args t).1 :: rest, (apply_update args t).2)
    else
      (update_in_mem args rest).map (fun r => (t :: r.1, r.2))

/-- `update_task` (src/main.rs:98-119).  Returns the in-memory collection
after the call (the Rust function mutates it through `&mut` even on the
priority-parse failure path), the file system, and the `Result`. -/
def update_task (args : UpdateArgs) (tasks : List Task) (fs : Fs) :
    List Task × Fs × Except String Unit :=
  match update_in_mem args tasks with
  | none => (tasks, fs, Except.error "Task not found")
  | some (tasks2, false) => (tasks2, fs, Except.error "Invalid priority")
  | some (tasks2, true) => (tasks2, save_tasks tasks2 fs, Except.ok ())

/-- Index of the first task satisfying `p` (the task `iter_mut().find`
yields). -/
def firstIdx (p : Task → Bool) (tasks : List Task) : Option Nat :=
  match tasks with
  | [] => none
  | t :: rest => if p t then some 0 else (firstIdx p rest).map (· + 1)

/-- The `remove` branch of `main` (src/main.rs:256-261):
`tasks.retain(|task| task.title != title)` then `save_tasks`. -/
def remove_cmd (title : String) (tasks : List Task) (fs : Fs) : List Task × Fs :=
  let kept := tasks.filter (fun t => !(t.title == title))
  (kept, save_tasks kept fs)

/-- Rust `str::to_lowercase`, restricted to the ASCII case mapping (the
mapping coincides with Rust on all ASCII text, which is all the comparison
semantics the search contract uses). -/
def lowercase (s : String) : String :=
  ⟨s.data.map Char.toLower⟩

/-- Character-list prefix test (the head comparison of Rust substring
search). -/
def isPrefixCh (q hay : List Char) : Bool :=
  match q, hay with
  | [], _ => true
  | _ :: _, [] => false
  | c :: cs, d :: ds => c == d && isPrefixCh cs ds

/-- Rust `str::contains(&q)` on character lists: `q` occurs contiguously in
`hay`. -/
def containsCh (hay q : List Char) : Bool :=
  match hay with
  | [] => isPrefixCh q []
  | _ :: t => isPrefixCh q hay || containsCh t q

/-- Rust `String::contains` for substring patterns. -/
def strContains (hay q : String) : Bool :=
  containsCh hay.data q.data

/-- The `search` branch of `main` (src/main.rs:294-307): lower-case the
query, keep tasks whose lower-cased title or description contains it. -/
def search_cmd (query : String) (tasks : List Task) : List Task :=
  let q := lowercase query
  tasks.filter (fun t =>
    strContains (lowercase t.title) q || strContains (lowercase t.description) q)

/-- `list_tasks_by_project` (src/main.rs:65-74): the filtered collection the
function prints (printing is outside the model). -/
def list_tasks_by_project (tasks : List Task) (project_name : String) : List Task :=
  tasks.filter (fun t => t.project == project_name)

/-- `list_tasks_by_status` (src/main.rs:77-83): the filtered collection. -/
def list_tasks_by_status (tasks : List Task) (status : String) : List Task :=
  tasks.filter (fun t => t.status == status)

/-- `list_tasks_by_priority` (src/main.rs:86-95): the filtered collection. -/
def list_tasks_by_priority (tasks : List Task) (priority : Nat) : List Task :=
  tasks.filter (fun t => t.priority == priority)

/-- The document whose parse determines `load_tasks`'s result: the stored
one when the read succeeds, the empty string substituted by
`unwrap_or_default()` otherwise. -/
def effectiveDoc (fs : Fs) : Doc :=
  match fs.file with
  | FileState.content d => d
  | _ => Doc.emptyDoc

/-- Sample task used as a concrete instance in witnesses (the first task of
the repository's own tests). -/
def sampleTask1 : Task := ⟨"Task 1", "Description 1", 1, "Todo", "Project"⟩

/-- Sample task used as a concrete instance in witnesses (the second task of
the repository's own tests). -/
def sampleTask2 : Task := ⟨"Task 2", "Description 2", 2, "In Progress", "Project"⟩

/-- A fresh file-system state: no backing file yet, no writes performed. -/
def emptyFs : Fs := ⟨FileState.absent, 0⟩

lemma decodeTask_encodeTask (t : Task) (h : t.priority ≤ 255) :
    decodeTask (encodeTask t) = Except.ok t := by
  simp [decodeTask, encodeTask, getField, asString, asU8, List.find?,
    Bind.bind, Except.bind, h]

lemma decodeTaskList_map_encodeTask (ts : List Task) (h : ∀ t ∈ ts, t.priority ≤ 255) :
    decodeTaskList (ts.map encodeTask) = Except.ok ts := by
  induction ts with
  | nil => rfl
  | cons t rest ih =>
    have ht : t.priority ≤ 255 := h t (List.mem_cons_self t rest)
    have hr := ih (fun u hu => h u (List.mem_cons_of_mem t hu))
    simp [decodeTaskList, decodeTask_encodeTask t ht, hr, Bind.bind, Except.bind]

lemma update_in_mem_eq_none (args : UpdateArgs) (tasks : List Task)
    (h : ∀ t ∈ tasks, (t.title == args.title) = false) :
    update_in_mem args tasks = none := by
  induction tasks with
  | nil => rfl
  | cons t rest ih =>
    have ht := h t (List.mem_cons_self t rest)
    simp [update_in_mem, ht, ih (fun u hu => h u (List.mem_cons_of_mem t hu))]

lemma update_in_mem_spec (args : UpdateArgs) :
    ∀ (tasks : List Task) (i : Nat),
      firstIdx (fun t => t.title == args.title) tasks = some i →
      ∃ t l, tasks.get? i = some t ∧
        update_in_mem args tasks = some (l, (apply_update args t).2) ∧
        l.length = tasks.length ∧
        l.get? i = some (apply_update args t).1 ∧
        (∀ j, j ≠ i → l.get? j = tasks.get? j) := by
  intro tasks
  induction tasks with
  | nil => intro i h; simp [firstIdx] at h
  | cons t rest ih =>
    intro i h
    by_cases hp : (t.title == args.title) = true
    · simp [firstIdx, hp] at h
      subst h
      refine ⟨t, (apply_update args t).1 :: rest, rfl, ?_, by simp, rfl, ?_⟩
      · simp [update_in_mem, hp]
      · intro j hj
        cases j with
        | zero => exact absurd rfl hj
        | succ j => simp
    · simp [firstIdx, hp] at h
      obtain ⟨i2, hi2, rfl⟩ := h
      obtain ⟨u, l, hu, hup, hlen, hgi, hfr⟩ := ih i2 hi2
      refine ⟨u, t :: l, by simpa using hu, ?_, by simpa using hlen, by simpa using hgi, ?_⟩
      · simp [update_in_mem, hp, hup]
      · intro j hj
        cases j with
        | zero => rfl
        | succ j =>
          have : j ≠ i2 := by omega
          simpa using hfr j this

lemma isPrefixCh_iff : ∀ (q hay : List Char), isPrefixCh q hay = true ↔ q <+: hay := by
  intro q
  induction q with
  | nil => intro hay; exact iff_of_true rfl List.nil_prefix
  | cons c cs ih =>
    intro hay
    cases hay with
    | nil =>
      refine iff_of_false ?_ (by simp)
      show ¬(false = true)
      simp
    | cons d ds =>
      show (c == d && isPrefixCh cs ds) = true ↔ _
      simp [Bool.and_eq_true, beq_iff_eq, ih ds, List.cons_prefix_cons]

lemma containsCh_iff : ∀ (hay q : List Char), containsCh hay q = true ↔ q <:+: hay := by
  intro hay
  induction hay with
  | nil =>
    intro q
    show isPrefixCh q [] = true ↔ _
    rw [isPrefixCh_iff]
    simp
  | cons d ds ih =>
    intro q
    show (isPrefixCh q (d :: ds) || containsCh ds q) = true ↔ _
    rw [List.infix_cons_iff]
    simp [isPrefixCh_iff, ih]

lemma bind_ne_ioErr {α β : Type} {x : Except LoadErr α} {f : α → Except LoadErr β}
    (hx : x ≠ Except.error LoadErr.ioErr) (hf : ∀ a, f a ≠ Except.error LoadErr.ioErr) :
    (x >>= f) ≠ Except.error LoadErr.ioErr := by
  cases x with
  | error e => simpa [Bind.bind, Except.bind] using hx
  | ok a => simpa [Bind.bind, Except.bind] using hf a

lemma getField_ne_ioErr (fields : List (String × Json)) (key : String) :
    getField fields key ≠ Except.error LoadErr.ioErr := by
  unfold getField
  cases List.find? (fun kv => kv.1 == key) fields <;> simp

lemma asString_ne_ioErr (j : Json) : asString j ≠ Except.error LoadErr.ioErr := by
  cases j <;> simp [asString]

lemma asU8_ne_ioErr (j : Json) : asU8 j ≠ Except.error LoadErr.ioErr := by
  cases j <;> simp [asU8]
  split <;> simp

lemma decodeTask_ne_ioErr (j : Json) : decodeTask j ≠ Except.error LoadErr.ioErr := by
  cases j with
  | obj fields =>
    refine bind_ne_ioErr (bind_ne_ioErr (getField_ne_ioErr _ _) asString_ne_ioErr) ?_
    intro title
    refine bind_ne_ioErr (bind_ne_ioErr (getField_ne_ioErr _ _) asString_ne_ioErr) ?_
    intro description
    refine bind_ne_ioErr (bind_ne_ioErr (getField_ne_ioErr _ _) asU8_ne_ioErr) ?_
    intro priority
    refine bind_ne_ioErr (bind_ne_ioErr (getField_ne_ioErr _ _) asString_ne_ioErr) ?_
    intro status
    refine bind_ne_ioErr (bind_ne_ioErr (getField_ne_ioErr _ _) asString_ne_ioErr) ?_
    intro project
    simp [decodeTask]
  | null => simp [decodeTask]
  | bool b => simp [decodeTask]
  | num n => simp [decodeTask]
  | str s => simp [decodeTask]
  | arr xs => simp [decodeTask]

lemma decodeTaskList_ne_ioErr (js : List Json) :
    decodeTaskList js ≠ Except.error LoadErr.ioErr := by
  induction js with
  | nil => simp [decodeTaskList]
  | cons j rest ih =>
    refine bind_ne_ioErr (decodeTask_ne_ioErr j) ?_
    intro t
    refine bind_ne_ioErr ih ?_
    intro ts
    simp

lemma from_str_ne_ioErr (d : Doc) : from_str d ≠ Except.error LoadErr.ioErr := by
  cases d with
  | emptyDoc => simp [from_str]
  | badDoc => simp [from_str]
  | jsonDoc j =>
    cases j with
    | arr xs => exact decodeTaskList_ne_ioErr xs
    | null => simp [from_str]
    | bool b => simp [from_str]
    | num n => simp [from_str]
    | str s => simp [from_str]
    | obj fields => simp [from_str]

/-- C1: saving any sequence of valid tasks and loading it back yields the
original sequence — same number of tasks, same field values, same order. -/
theorem save_then_load_round_trip (tasks : List Task) (fs : Fs)
    (h : ∀ t ∈ tasks, t.valid) :
    load_tasks (save_tasks tasks fs) = Except.ok tasks := by
  simp [load_tasks, save_tasks, fs_write, read_to_string, from_str, encodeTasks,
    decodeTaskList_map_encodeTask tasks h]

/-- Witness for C1 at the two tasks of the repository's round-trip test. -/
theorem save_then_load_round_trip_witness :
    load_tasks (save_tasks [sampleTask1, sampleTask2] emptyFs) =
      Except.ok [sampleTask1, sampleTask2] :=
  save_then_load_round_trip [sampleTask1, sampleTask2] emptyFs (by decide)

/-- C2 counterexample: with an unparseable `new_priority`, `update_task`
does fail, but the supplied `new_description` has already been written to
the matching task, so "no field of any task has been mutated" is false. -/
theorem update_invalid_priority_mutation_cex :
    update_task ⟨"Task 1", some "New desc", some "not-a-number", none, none⟩
        [⟨"Task 1", "Old desc", 1, "Todo", "P"⟩] emptyFs =
      ([⟨"Task 1", "New desc", 1, "Todo", "P"⟩], emptyFs, Except.error "Invalid priority") ∧
    ("New desc" : String) ≠ "Old desc" := by
  exact ⟨rfl, by decide⟩

/-- C2 amended: if `new_priority` is supplied but unparseable as `u8`,
`update_task` fails with the validation error and performs no save, but a
supplied `new_description` has already been applied to the first matching
task (fields checked after priority — status, project — are untouched, and
every other task is unchanged). -/
theorem update_invalid_priority_partial (args : UpdateArgs) (tasks : List Task)
    (fs : Fs) (i : Nat) (p : String)
    (hp : args.priority = some p) (hparse : parse_u8 p = none)
    (hfind : firstIdx (fun t => t.title == args.title) tasks = some i) :
    ∃ t, tasks.get? i = some t ∧
      (update_task args tasks fs).2.2 = Except.error "Invalid priority" ∧
      (update_task args tasks fs).2.1 = fs ∧
      (update_task args tasks fs).1.get? i = some (apply_desc args.description t) ∧
      (update_task args tasks fs).1.length = tasks.length ∧
      (∀ j, j ≠ i → (update_task args tasks fs).1.get? j = tasks.get? j) := by
  obtain ⟨t, l, hget, hup, hlen, hgi, hfr⟩ := update_in_mem_spec args tasks i hfind
  have happ : apply_update args t = (apply_desc args.description t, false) := by
    simp [apply_update, hp, hparse]
  have hup2 : update_in_mem args tasks = some (l, false) := by
    rw [hup, happ]
  have heq : update_task args tasks fs = (l, fs, Except.error "Invalid priority") := by
    simp [update_task, hup2]
  have hgi2 : l.get? i = some (apply_desc args.description t) := by
    rw [hgi, happ]
  exact ⟨t, hget, by rw [heq], by rw [heq], by rw [heq]; exact hgi2,
    by rw [heq]; exact hlen, fun j hj => by rw [heq]; exact hfr j hj⟩

/-- Witness for the amended C2 at a concrete one-task collection. -/
theorem update_invalid_priority_partial_witness :
    (update_task ⟨"Task 1", some "New desc", some "abc", none, none⟩
        [sampleTask1] emptyFs).2.2 = Except.error "Invalid priority" ∧
    (update_task ⟨"Task 1", some "New desc", some "abc", none, none⟩
        [sampleTask1] emptyFs).2.1 = emptyFs := by
  obtain ⟨t, _, h1, h2, _, _, _⟩ :=
    update_invalid_priority_partial ⟨"Task 1", some "New desc", some "abc", none, none⟩
      [sampleTask1] emptyFs 0 "abc" rfl (by decide) (by decide)
  exact ⟨h1, h2⟩

/-- C3 counterexample: on an absent backing file — and likewise on an empty
one — `load_tasks` does not succeed with zero tasks; the empty content
produced by `unwrap_or_default()` fails JSON parsing. -/
theorem load_absent_or_empty_cex :
    load_tasks ⟨FileState.absent, 0⟩ = Except.error LoadErr.decodeErr ∧
    load_tasks ⟨FileState.content Doc.emptyDoc, 0⟩ = Except.error LoadErr.decodeErr ∧
    load_tasks ⟨FileState.absent, 0⟩ ≠ Except.ok [] :=
  ⟨rfl, rfl, fun h => Except.noConfusion h⟩

/-- C3 amended: when the file is absent or its contents are empty,
`load_tasks` fails with a `DecodeError` (the empty string is not a valid
JSON document); the entry point recovers from any load failure with
`unwrap_or_else`, so the program still starts with zero tasks. -/
theorem load_absent_or_empty_behavior (n : Nat) :
    load_tasks ⟨FileState.absent, n⟩ = Except.error LoadErr.decodeErr ∧
    load_tasks ⟨FileState.content Doc.emptyDoc, n⟩ = Except.error LoadErr.decodeErr ∧
    main_load ⟨FileState.absent, n⟩ = [] ∧
    main_load ⟨FileState.content Doc.emptyDoc, n⟩ = [] :=
  ⟨rfl, rfl, rfl, rfl⟩

/-- C4 counterexample: when the read fails for a reason other than absence,
`load_tasks` reports a `DecodeError`, not the claimed `IOError`. -/
theorem load_unreadable_cex :
    load_tasks ⟨FileState.unreadable, 0⟩ = Except.error LoadErr.decodeErr ∧
    load_tasks ⟨FileState.unreadable, 0⟩ ≠ Except.error LoadErr.ioErr :=
  ⟨rfl, fun h => absurd (Except.error.inj h) (by decide)⟩

/-- C4 amended: `load_tasks` never returns an `IOError`; every read failure
(absence included) is replaced by empty content via `unwrap_or_default()`,
so its result is always the parse of the effective document — a
`DecodeError` exactly when that document does not parse. -/
theorem load_decode_only (fs : Fs) :
    load_tasks fs = from_str (effectiveDoc fs) ∧
    load_tasks fs ≠ Except.error LoadErr.ioErr := by
  have heq : load_tasks fs = from_str (effectiveDoc fs) := by
    obtain ⟨file, w⟩ := fs
    cases file <;> rfl
  exact ⟨heq, by rw [heq]; exact from_str_ne_ioErr _⟩

/-- C5: `remove` deletes exactly the tasks whose title equals the given
title, keeps the remaining tasks in their relative order, and when nothing
matches it is a no-op that still rewrites the unchanged collection to the
file, signaling no error. -/
theorem remove_deletes_all_matches (title : String) (tasks : List Task) (fs : Fs) :
    (remove_cmd title tasks fs).1.Sublist tasks ∧
    (∀ t : Task, t ∈ (remove_cmd title tasks fs).1 ↔ (t ∈ tasks ∧ ¬t.title = title)) ∧
    ((∀ t ∈ tasks, ¬t.title = title) →
      (remove_cmd title tasks fs).1 = tasks ∧
      (remove_cmd title tasks fs).2 = save_tasks tasks fs ∧
      ((remove_cmd title tasks fs).2).writes = fs.writes + 1) := by
  refine ⟨List.filter_sublist tasks, ?_, ?_⟩
  · intro t
    simp [remove_cmd, List.mem_filter]
  · intro h
    have hkeep : tasks.filter (fun t => !(t.title == title)) = tasks := by
      rw [List.filter_eq_self]
      intro t ht
      simpa using h t ht
    refine ⟨hkeep, ?_, ?_⟩
    · show save_tasks (tasks.filter _) fs = save_tasks tasks fs
      rw [hkeep]
    · show (save_tasks (tasks.filter _) fs).writes = fs.writes + 1
      rfl

/-- Witness for C5: removing a title absent from the collection keeps the
collection and still performs one write. -/
theorem remove_deletes_all_matches_witness :
    (remove_cmd "Task 1" [sampleTask2] emptyFs).1 = [sampleTask2] ∧
    ((remove_cmd "Task 1" [sampleTask2] emptyFs).2).writes = emptyFs.writes + 1 := by
  obtain ⟨h1, _, h2⟩ :=
    (remove_deletes_all_matches "Task 1" [sampleTask2] emptyFs).2.2 (by decide)
  exact ⟨h1, h2⟩

/-- C6: with no matching title `update_task` fails with the not-found error,
leaves the collection untouched and performs no write; with a match, only
the first matching position can change. -/
theorem update_not_found_or_first (args : UpdateArgs) (tasks : List Task) (fs : Fs) :
    ((∀ t ∈ tasks, ¬t.title = args.title) →
      update_task args tasks fs = (tasks, fs, Except.error "Task not found")) ∧
    (∀ i, firstIdx (fun t => t.title == args.title) tasks = some i →
      ∀ j, j ≠ i → (update_task args tasks fs).1.get? j = tasks.get? j) := by
  constructor
  · intro h
    have hnone : update_in_mem args tasks = none :=
      update_in_mem_eq_none args tasks (fun t ht => by simpa using h t ht)
    simp [update_task, hnone]
  · intro i hi j hj
    obtain ⟨t, l, hget, hup, hlen, hgi, hfr⟩ := update_in_mem_spec args tasks i hi
    cases hb : (apply_update args t).2 <;>
      simp [update_task, hup, hb] <;> simpa using hfr j hj

/-- Witness for C6: updating the absent title "Ghost" fails, changes
nothing, and writes nothing. -/
theorem update_not_found_or_first_witness :
    update_task ⟨"Ghost", some "New desc", none, none, none⟩ [sampleTask1, sampleTask2]
        emptyFs =
      ([sampleTask1, sampleTask2], emptyFs, Except.error "Task not found") :=
  (update_not_found_or_first ⟨"Ghost", some "New desc", none, none, none⟩
    [sampleTask1, sampleTask2] emptyFs).1 (by decide)

/-- C7: an update supplying only `new_description` succeeds and changes
exactly the description of the first matching task; its priority, status,
and project keep their prior values. -/
theorem update_only_description (title d : String) (tasks : List Task) (fs : Fs)
    (i : Nat) (hfind : firstIdx (fun t => t.title == title) tasks = some i) :
    ∃ t, tasks.get? i = some t ∧
      (update_task ⟨title, some d, none, none, none⟩ tasks fs).1.get? i =
        some { t with description := d } ∧
      (update_task ⟨title, some d, none, none, none⟩ tasks fs).2.2 = Except.ok () := by
  obtain ⟨t, l, hget, hup, hlen, hgi, hfr⟩ :=
    update_in_mem_spec ⟨title, some d, none, none, none⟩ tasks i hfind
  have happ : apply_update ⟨title, some d, none, none, none⟩ t =
      ({ t with description := d }, true) := rfl
  have hup2 : update_in_mem ⟨title, some d, none, none, none⟩ tasks = some (l, true) := by
    rw [hup, happ]
  have hgi2 : l.get? i = some { t with description := d } := by
    rw [hgi, happ]
  refine ⟨t, hget, ?_, ?_⟩
  · simp [update_task, hup2]
    simpa using hgi2
  · simp [update_task, hup2]

/-- Witness for C7 at the repository's own update test: only the
description of "Task 1" changes. -/
theorem update_only_description_witness :
    (update_task ⟨"Task 1", some "Updated Description", none, none, none⟩
        [sampleTask1, sampleTask2] emptyFs).1.get? 0 =
      some { sampleTask1 with description := "Updated Description" } ∧
    (update_task ⟨"Task 1", some "Updated Description", none, none, none⟩
        [sampleTask1, sampleTask2] emptyFs).2.2 = Except.ok () := by
  obtain ⟨t, hget, h1, h2⟩ :=
    update_only_description "Task 1" "Updated Description" [sampleTask1, sampleTask2]
      emptyFs 0 (by decide)
  have ht : t = sampleTask1 := by
    simpa using hget.symm
  rw [ht] at h1
  exact ⟨h1, h2⟩

/-- C8: `search` keeps exactly the tasks whose lower-cased title or
lower-cased description contains the lower-cased query as a contiguous
substring — case-insensitive on both fields, either field alone suffices. -/
theorem search_matches_iff (query : String) (tasks : List Task) (t : Task) :
    t ∈ search_cmd query tasks ↔
      (t ∈ tasks ∧
        ((lowercase query).data <:+: (lowercase t.title).data ∨
         (lowercase query).data <:+: (lowercase t.description).data)) := by
  simp [search_cmd, List.mem_filter, strContains, containsCh_iff, Bool.or_eq_true]

/-- C9: the three find operations keep exactly the tasks whose project,
status, or priority equals the argument (string matches are plain equality,
hence case-sensitive), and each result is an order-preserving subsequence
of the input. -/
theorem find_by_filters_exact (tasks : List Task) (pn st : String) (pr : Nat) :
    ((list_tasks_by_project tasks pn).Sublist tasks ∧
      ∀ t : Task, t ∈ list_tasks_by_project tasks pn ↔ (t ∈ tasks ∧ t.project = pn)) ∧
    ((list_tasks_by_status tasks st).Sublist tasks ∧
      ∀ t : Task, t ∈ list_tasks_by_status tasks st ↔ (t ∈ tasks ∧ t.status = st)) ∧
    ((list_tasks_by_priority tasks pr).Sublist tasks ∧
      ∀ t : Task, t ∈ list_tasks_by_priority tasks pr ↔ (t ∈ tasks ∧ t.priority = pr)) := by
  refine ⟨⟨List.filter_sublist tasks, ?_⟩, ⟨List.filter_sublist tasks, ?_⟩,
    ⟨List.filter_sublist tasks, ?_⟩⟩ <;>
    intro t <;>
    simp [list_tasks_by_project, list_tasks_by_status, list_tasks_by_priority,
      List.mem_filter]

/-- C10: a successful update preserves the collection's length and leaves
every position other than the first matching index — duplicates of the
title included — exactly as it was. -/
theorem update_preserves_rest (args : UpdateArgs) (tasks : List Task) (fs : Fs)
    (i : Nat) (hfind : firstIdx (fun t => t.title == args.title) tasks = some i)
    (hok : (update_task args tasks fs).2.2 = Except.ok ()) :
    (update_task args tasks fs).1.length = tasks.length ∧
    (∀ j, j ≠ i → (update_task args tasks fs).1.get? j = tasks.get? j) := by
  obtain ⟨t, l, hget, hup, hlen, hgi, hfr⟩ := update_in_mem_spec args tasks i hfind
  cases hb : (apply_update args t).2 with
  | false =>
    rw [show update_task args tasks fs = (l, fs, Except.error "Invalid priority") by
      simp [update_task, hup, hb]] at hok
    exact absurd hok (by simp)
  | true =>
    rw [show update_task args tasks fs = (l, save_tasks l fs, Except.ok ()) by
      simp [update_task, hup, hb]]
    exact ⟨hlen, hfr⟩

/-- Witness for C10: updating "Task 1"'s description in a two-task
collection keeps the length and leaves position 1 unchanged. -/
theorem update_preserves_rest_witness :
    (update_task ⟨"Task 1", some "Updated Description", none, none, none⟩
        [sampleTask1, sampleTask2] emptyFs).1.length = 2 ∧
    (update_task ⟨"Task 1", some "Updated Description", none, none, none⟩
        [sampleTask1, sampleTask2] emptyFs).1.get? 1 = some sampleTask2 := by
  obtain ⟨h1, h2⟩ :=
    update_preserves_rest ⟨"Task 1", some "Updated Description", none, none, none⟩
      [sampleTask1, sampleTask2] emptyFs 0 (by decide) rfl
  refine ⟨by rw [h1]; rfl, ?_⟩
  rw [h2 1 (by decide)]
  rfl

end TaskMgr
